import Mathlib

/-!
Shallow embedding of the usage rate-limiting, token accounting, request
authentication and batched-write-with-retry subsystem of the AI-Trade-Journal
worker, together with theorems settling the frozen claims about it.

The embedding follows the source:
* `checkRateLimit` / `upsertDaily` — the rate-limiting middleware
  (atomic conditional upsert `INSERT ... ON CONFLICT ... DO UPDATE ...
  WHERE analysis_count < ?` over the `usage` table).
* `trackTokenUsage` / `upsertTokens` — the token-accounting upsert.
* `verifyRequest`, `verifyHmacSignature`, `authenticate`,
  `isValidKeyFormat` — the authentication middleware.
* `notionFetch`, `syncAux` — the Notion proxy's retrying fetch and the
  sequential batch sync loop.

Asynchronous effects are made explicit: the database is threaded as a value
(with constructors for an absent handle and for a handle whose every query
throws), wall-clock inputs (`today`, `now`) are parameters, `fetch` responses
and the retry jitter are oracles passed in as functions, and sleeps are
recorded in the returned trace instead of being performed.
-/

/-- One row of the `usage` table (schema.sql): unique on (license_key, date). -/
structure UsageRow where
  license_key : String
  date : String
  analysis_count : Nat
  token_input : Nat
  token_output : Nat
deriving DecidableEq, Repr

/-- The `usage` table contents. -/
abbrev Store := List UsageRow

/-- Byte-wise (here: code-point-wise) lexicographic `≤` on char lists,
modelling SQLite's memcmp comparison of TEXT values such as dates. -/
def charsLe : List Char → List Char → Bool
  | [], _ => true
  | _ :: _, [] => false
  | c :: cs, d :: ds =>
    if c.toNat < d.toNat then true
    else if d.toNat < c.toNat then false
    else charsLe cs ds

/-- Comparison `a <= b` on strings as SQLite compares TEXT columns. -/
def strLeb (a b : String) : Bool := charsLe a.data b.data

/-- Query `SELECT ... FROM usage WHERE license_key = ? AND date = ?` (first row). -/
def findRow : Store → String → String → Option UsageRow
  | [], _, _ => none
  | r :: rs, k, d =>
    if r.license_key == k && r.date == d then some r else findRow rs k d

/-- The stored `analysis_count` for (identity, day), 0 when the row is absent. -/
def dailyCount (s : Store) (k d : String) : Nat :=
  (findRow s k d).elim 0 (fun r => r.analysis_count)

/-- The stored `token_input` for (identity, day), 0 when the row is absent. -/
def tokenInCount (s : Store) (k d : String) : Nat :=
  (findRow s k d).elim 0 (fun r => r.token_input)

/-- The stored `token_output` for (identity, day), 0 when the row is absent. -/
def tokenOutCount (s : Store) (k d : String) : Nat :=
  (findRow s k d).elim 0 (fun r => r.token_output)

/-- Query `SELECT SUM(analysis_count) FROM usage WHERE license_key = ? AND date >= ?`
(an empty SUM is NULL in SQL, and `null >= limit` is false in JS, which
coincides with the empty sum being 0 here). -/
def monthlySum : Store → String → String → Nat
  | [], _, _ => 0
  | r :: rs, k, ms =>
    (if r.license_key == k && strLeb ms r.date then r.analysis_count else 0)
      + monthlySum rs k ms

/-- Expression `today.substring(0, 7) + '-01'` from the rate limiter. -/
def monthStartOf (today : String) : String := today.take 7 ++ "-01"

/-- Two-digit zero padding for date components. -/
def pad2 (n : Nat) : String := if n < 10 then "0" ++ toString n else toString n

/-- Year component of a YYYY-MM-DD string. -/
def yearOf (today : String) : Nat := ((today.take 4).toNat?).getD 0

/-- Month component of a YYYY-MM-DD string. -/
def monthOf (today : String) : Nat := (((today.drop 5).take 2).toNat?).getD 0

/-- Day component of a YYYY-MM-DD string. -/
def dayOf (today : String) : Nat := (((today.drop 8).take 2).toNat?).getD 0

/-- Value of `new Date(monthStart); d.setMonth(d.getMonth() + 1); d.toISOString()` —
the first instant of the next calendar month (UTC). -/
def nextMonthResetAt (today : String) : String :=
  let y := yearOf today
  let m := monthOf today
  let ym := if 12 ≤ m then (y + 1, 1) else (y, m + 1)
  toString ym.1 ++ "-" ++ pad2 ym.2 ++ "-01T00:00:00.000Z"

/-- Number of days in a Gregorian month. -/
def daysInMonth (y m : Nat) : Nat :=
  if m == 2 then (if (y % 4 == 0 && y % 100 != 0) || y % 400 == 0 then 29 else 28)
  else if m == 4 || m == 6 || m == 9 || m == 11 then 30
  else 31

/-- Value of `const t = new Date(); t.setDate(t.getDate() + 1); t.setHours(0,0,0,0)` —
the next UTC midnight after `today` (the worker runs at UTC). -/
def nextDayResetAt (today : String) : String :=
  let y := yearOf today
  let m := monthOf today
  let d := dayOf today
  if d + 1 ≤ daysInMonth y m then
    toString y ++ "-" ++ pad2 m ++ "-" ++ pad2 (d + 1) ++ "T00:00:00.000Z"
  else if 12 ≤ m then
    toString (y + 1) ++ "-01-01T00:00:00.000Z"
  else
    toString y ++ "-" ++ pad2 (m + 1) ++ "-01T00:00:00.000Z"

/-- Constant `DAILY_LIMIT = 10` from the rate-limiting middleware. -/
def DAILY_LIMIT : Nat := 10

/-- Constant `MONTHLY_LIMIT = 200` from the rate-limiting middleware. -/
def MONTHLY_LIMIT : Nat := 200

/-- Result shape of `checkRateLimit`:
`{allowed, message?, resetAt?}`. -/
structure RateLimitResult where
  allowed : Bool
  message : Option String := none
  resetAt : Option String := none
deriving DecidableEq, Repr

/-- The atomic conditional upsert
`INSERT INTO usage (license_key, date, analysis_count, token_input, token_output)
VALUES (?, ?, 1, 0, 0) ON CONFLICT(license_key, date) DO UPDATE SET
analysis_count = analysis_count + 1 WHERE analysis_count < ?`.
Returns the updated table and `result.meta.changes`. -/
def upsertDaily : Store → String → String → Nat → Store × Nat
  | [], k, d, _ => ([⟨k, d, 1, 0, 0⟩], 1)
  | r :: rs, k, d, lim =>
    if r.license_key == k && r.date == d then
      if r.analysis_count < lim then
        ({ r with analysis_count := r.analysis_count + 1 } :: rs, 1)
      else (r :: rs, 0)
    else
      let rest := upsertDaily rs k d lim
      (r :: rest.1, rest.2)

/-- The body of `checkRateLimit`'s try block: monthly read-only check first,
then the atomic daily check-and-increment. -/
def checkRateLimitDB (licenseKey today : String) (s : Store) :
    RateLimitResult × Store :=
  let monthStart := monthStartOf today
  if MONTHLY_LIMIT ≤ monthlySum s licenseKey monthStart then
    ({ allowed := false, message := some "MONTHLY_LIMIT_REACHED",
       resetAt := some (nextMonthResetAt today) }, s)
  else
    let up := upsertDaily s licenseKey today DAILY_LIMIT
    if up.2 == 0 then
      ({ allowed := false, message := some "DAILY_LIMIT_REACHED",
         resetAt := some (nextDayResetAt today) }, up.1)
    else
      ({ allowed := true }, up.1)

/-- The backing D1 handle: absent (`!env.DB`), present but throwing on every
query, or present with the given table contents. -/
inductive DBState where
  | absent
  | failing
  | avail (s : Store)
deriving DecidableEq, Repr

/-- Function `checkRateLimit(licenseKey, env)` from the rate-limiting middleware:
missing-key guard, `!env.DB` fast path, and the try/catch that fails open
(`return { allowed: true }`) when a store query throws. -/
def checkRateLimit (licenseKey today : String) (db : DBState) :
    RateLimitResult × DBState :=
  if licenseKey == "" then
    ({ allowed := false, message := some "MISSING_LICENSE_KEY" }, db)
  else
    match db with
    | .absent => ({ allowed := true }, db)
    | .failing => ({ allowed := true }, db)
    | .avail s =>
      let out := checkRateLimitDB licenseKey today s
      (out.1, .avail out.2)

/-- A sequence of `n` calls to `checkRateLimit` for one identity on one day,
collecting the results and the final store. -/
def runCalls (k today : String) : Nat → DBState → List RateLimitResult × DBState
  | 0, db => ([], db)
  | n + 1, db =>
    let step := checkRateLimit k today db
    let rest := runCalls k today n step.2
    (step.1 :: rest.1, rest.2)

/-- The pure effect of `runCalls` on an available store: the
check-and-increment bodies folded over the call sequence. -/
def runCallsStore (k today : String) : Nat → Store → Store
  | 0, s => s
  | n + 1, s => runCallsStore k today n (checkRateLimitDB k today s).2

/-- The `{ allowed: true }` result. -/
def rlAllowed : RateLimitResult := { allowed := true }

/-- The daily-scope denial result. -/
def rlDailyDenied (today : String) : RateLimitResult :=
  { allowed := false, message := some "DAILY_LIMIT_REACHED",
    resetAt := some (nextDayResetAt today) }

/-- The monthly-scope denial result. -/
def rlMonthlyDenied (today : String) : RateLimitResult :=
  { allowed := false, message := some "MONTHLY_LIMIT_REACHED",
    resetAt := some (nextMonthResetAt today) }

/-- The token-accounting upsert of `trackTokenUsage`:
`INSERT INTO usage (...) VALUES (?, ?, 0, ?, ?) ON CONFLICT(license_key, date)
DO UPDATE SET token_input = token_input + ?, token_output = token_output + ?`.
A lazily created row has `analysis_count = 0`. -/
def upsertTokens : Store → String → String → Nat → Nat → Store
  | [], k, d, tin, tout => [⟨k, d, 0, tin, tout⟩]
  | r :: rs, k, d, tin, tout =>
    if r.license_key == k && r.date == d then
      { r with token_input := r.token_input + tin,
               token_output := r.token_output + tout } :: rs
    else r :: upsertTokens rs k d tin tout

/-- Function `trackTokenUsage(licenseKey, env, usage)`: no-op without a key or a DB
handle, and the tracking failure is swallowed (store left as-is). -/
def trackTokenUsage (licenseKey : String) (db : DBState) (today : String)
    (tin tout : Nat) : DBState :=
  if licenseKey == "" then db
  else
    match db with
    | .absent => db
    | .failing => db
    | .avail s => .avail (upsertTokens s licenseKey today tin tout)

/-- A sequence of `trackTokenUsage` calls with the listed
(tokenInput, tokenOutput) amounts. -/
def runTrack (k today : String) : List (Nat × Nat) → DBState → DBState
  | [], db => db
  | amt :: rest, db =>
    runTrack k today rest (trackTokenUsage k db today amt.1 amt.2)

/-- The pure effect of `runTrack` on an available store: the token upserts
folded over the call list. -/
def runTrackStore (k today : String) : List (Nat × Nat) → Store → Store
  | [], s => s
  | amt :: rest, s => runTrackStore k today rest (upsertTokens s k today amt.1 amt.2)

/-- Constant `TIMESTAMP_TOLERANCE_MS = 300000` (5 minutes). -/
def TIMESTAMP_TOLERANCE_MS : Nat := 300000

/-- The restricted uppercase-alphanumeric charset of license keys
(no 0, O, 1, I, L). -/
def KEY_CHARSET : List Char := "ABCDEFGHJKMNPQRSTUVWXYZ23456789".data

/-- Whether a character belongs to the license-key charset. -/
def validKeyChar (c : Char) : Bool := KEY_CHARSET.contains c

/-- The regex `^G{4}-G{4}-G{4}-G{4}$` over the restricted charset `G`:
exactly four groups of four charset characters separated by dashes. -/
def isValidKeyFormat (key : String) : Bool :=
  match key.data with
  | [a1, a2, a3, a4, h1, b1, b2, b3, b4, h2, c1, c2, c3, c4, h3, e1, e2, e3, e4] =>
    h1 == '-' && h2 == '-' && h3 == '-' &&
      [a1, a2, a3, a4, b1, b2, b3, b4, c1, c2, c3, c4, e1, e2, e3, e4].all validKeyChar
  | _ => false

/-- Constant `SKIP_AUTH_PATHS` from the auth middleware. -/
def SKIP_AUTH_PATHS : List String :=
  ["/health", "/api/license/activate", "/api/notion/callback"]

/-- The `licenses` table as seen by the auth middleware: (key, status) rows.
`absent` models a falsy `env.DB`, `failing` a handle whose every query
throws. -/
inductive LicDB where
  | absent
  | failing
  | avail (rows : List (String × String))
deriving DecidableEq, Repr

/-- Query `SELECT status FROM licenses WHERE key = ?` (first row's status). -/
def findLicense (rows : List (String × String)) (k : String) :
    Option (String × String) :=
  rows.find? (fun p => p.1 == k)

/-- An inbound request as the auth middleware reads it: the license-key
header is `headers.get('X-License-Key') || ''`, the other headers are
`null` when absent. -/
structure AuthRequest where
  licenseKey : String
  timestamp : Option String
  signature : Option String
  body : String

/-- Result shape of `verifyRequest`:
`{valid, licenseKey?, reason?}`. -/
structure VerifyResult where
  valid : Bool
  licenseKey : Option String := none
  reason : Option String := none
deriving DecidableEq, Repr

/-- The constant-time comparison inside `verifyHmacSignature`: reject on
unequal length, otherwise accumulate the bitwise OR of XORed character codes
and branch only on the final accumulator. -/
def ctEq (a b : String) : Bool :=
  if a.length != b.length then false
  else
    ((a.data.zip b.data).foldl
      (fun acc p => acc ||| (p.1.toNat ^^^ p.2.toNat)) 0) == 0

/-- Function `verifyHmacSignature(body, timestamp, signature, secret)`: recompute the
hex HMAC-SHA256 over `timestamp + ":" + body` under the secret and compare
constant-time. The HMAC primitive (WebCrypto) is passed in as the oracle
`hmacHex secret message`. -/
def verifyHmacSignature (hmacHex : String → String → String)
    (body timestamp signature secret : String) : Bool :=
  ctEq signature (hmacHex secret (timestamp ++ ":" ++ body))

/-- Function `verifyRequest(request, env)` from the auth middleware: license key
presence, timestamp presence and freshness, license lookup (failure of the
store swallowed — fail open), then opportunistic HMAC verification only when
both a signature and a configured secret are present. `parseTime` is the
JS `new Date(timestamp).getTime()` (none = NaN) and `now` is `Date.now()`. -/
def verifyRequest (parseTime : String → Option Int) (now : Int)
    (req : AuthRequest) (db : LicDB) (secret : Option String)
    (hmacHex : String → String → String) : VerifyResult :=
  if req.licenseKey == "" then
    { valid := false, reason := some "MISSING_LICENSE_KEY" }
  else
    match req.timestamp with
    | none => { valid := false, reason := some "MISSING_TIMESTAMP" }
    | some ts =>
      if ts == "" then { valid := false, reason := some "MISSING_TIMESTAMP" }
      else
        match parseTime ts with
        | none => { valid := false, reason := some "REQUEST_EXPIRED" }
        | some rt =>
          if TIMESTAMP_TOLERANCE_MS < (now - rt).natAbs then
            { valid := false, reason := some "REQUEST_EXPIRED" }
          else
            let storeReject : Option VerifyResult :=
              match db with
              | .absent => none
              | .failing => none
              | .avail rows =>
                match findLicense rows req.licenseKey with
                | none => some { valid := false, reason := some "LICENSE_NOT_FOUND" }
                | some lic =>
                  if lic.2 == "revoked" then
                    some { valid := false, reason := some "LICENSE_REVOKED" }
                  else none
            match storeReject with
            | some r => r
            | none =>
              let sigReject : Option VerifyResult :=
                match req.signature, secret with
                | some sg, some sec =>
                  if sg == "" || sec == "" then none
                  else if verifyHmacSignature hmacHex req.body ts sg sec then none
                  else some { valid := false, reason := some "INVALID_SIGNATURE" }
                | _, _ => none
              match sigReject with
              | some r => r
              | none => { valid := true, licenseKey := some req.licenseKey }

/-- One row of the `licenses` table as the `authenticate` middleware selects
it, reduced to the columns the middleware branches on. -/
abbrev LicenseRow := String × String

/-- Result of the `authenticate` middleware: skip-path context, success with
the key, its hash prefix and the license row, or a `{code, status}` error. -/
inductive AuthOutcome where
  | skip
  | ok (licenseKey : String) (licenseKeyHash : String) (license : LicenseRow)
  | err (code : String) (status : Nat)
deriving DecidableEq, Repr

/-- Function `authenticate(request, env)` from the auth middleware: skip-path guard,
missing-key and format checks before any store access, then the license
lookup (a throwing store yields AUTH_DB_ERROR). `hashHex` is the SHA-256 hex
oracle used only for the log-friendly key hash. -/
def authenticate (hashHex : String → String) (path : String)
    (licenseKey : Option String) (db : LicDB) : AuthOutcome :=
  if SKIP_AUTH_PATHS.contains path then .skip
  else
    match licenseKey with
    | none => .err "AUTH_MISSING_KEY" 401
    | some k =>
      if k == "" then .err "AUTH_MISSING_KEY" 401
      else if !isValidKeyFormat k then .err "AUTH_INVALID_FORMAT" 401
      else
        let keyHash := (hashHex k).take 8
        match db with
        | .absent => .err "AUTH_DB_ERROR" 500
        | .failing => .err "AUTH_DB_ERROR" 500
        | .avail rows =>
          match findLicense rows k with
          | none => .err "AUTH_KEY_NOT_FOUND" 401
          | some lic =>
            if lic.2 != "active" then .err "AUTH_KEY_NOT_ACTIVE" 403
            else .ok k keyHash lic

/-- Constant `MAX_RETRIES = 3` from the Notion proxy. -/
def MAX_RETRIES : Nat := 3

/-- Constant `BASE_DELAYS_MS = [500, 1000, 2000]`. -/
def BASE_DELAYS_MS : List Nat := [500, 1000, 2000]

/-- Constant `JITTER_RANGES_MS = [200, 400, 800]`. -/
def JITTER_RANGES_MS : List Nat := [200, 400, 800]

/-- Constant `BATCH_SEQUENTIAL_DELAY_MS = 340`. -/
def BATCH_SEQUENTIAL_DELAY_MS : Nat := 340

/-- Class `NotionApiError` reduced to the fields the control flow branches on. -/
structure NotionApiError where
  code : String
  httpStatus : Nat
deriving DecidableEq, Repr

/-- Outcome of one `fetch` of the Notion API: an ok response with a JSON
body, an error response with an HTTP status, or a thrown network error. -/
inductive FetchOutcome where
  | success (body : String)
  | httpError (status : Nat) (errorBody : String)
  | networkError
deriving DecidableEq, Repr

instance : DecidableEq (Except NotionApiError String) := fun x y =>
  match x, y with
  | .ok a, .ok b =>
    if h : a = b then isTrue (by rw [h]) else isFalse (by simp [h])
  | .ok _, .error _ => isFalse (by simp)
  | .error _, .ok _ => isFalse (by simp)
  | .error a, .error b =>
    if h : a = b then isTrue (by rw [h]) else isFalse (by simp [h])

/-- What one `notionFetch` call did: how many times `fetch` was invoked,
which sleeps were awaited (in order), and the final outcome. -/
structure FetchTrace where
  calls : Nat
  sleeps : List Nat
  result : Except NotionApiError String
deriving DecidableEq, Repr

/-- Delay `BASE_DELAYS_MS[attempt] + randomJitter(JITTER_RANGES_MS[attempt])`;
the jitter draw is the oracle `jitter attempt ∈ [0, range)`. -/
def retryDelay (jitter : Nat → Nat) (attempt : Nat) : Nat :=
  BASE_DELAYS_MS.getD attempt 0 + jitter attempt

/-- The retry loop body of `notionFetch`: `for (attempt = 0; attempt <=
MAX_RETRIES; attempt++)`, retrying on 429/5xx statuses and on network errors
while `attempt < MAX_RETRIES`, sleeping `retryDelay` before each retry.
`fuel` counts the loop iterations left; the post-loop `throw lastError` is
the fuel-0 case (unreachable from the top-level entry). -/
def notionFetchAux (respond : Nat → FetchOutcome) (jitter : Nat → Nat) :
    Nat → Nat → Option NotionApiError → FetchTrace
  | 0, _, lastError =>
    ⟨0, [], .error (lastError.getD ⟨"NOTION_UNKNOWN_ERROR", 500⟩)⟩
  | fuel + 1, attempt, _ =>
    match respond attempt with
    | .success body => ⟨1, [], .ok body⟩
    | .httpError status _ =>
      if (status == 429 || decide (500 ≤ status)) && attempt < MAX_RETRIES then
        let t := notionFetchAux respond jitter fuel (attempt + 1)
          (some ⟨"NOTION_API_ERROR", status⟩)
        ⟨t.calls + 1, retryDelay jitter attempt :: t.sleeps, t.result⟩
      else ⟨1, [], .error ⟨"NOTION_API_ERROR", status⟩⟩
    | .networkError =>
      if attempt < MAX_RETRIES then
        let t := notionFetchAux respond jitter fuel (attempt + 1) none
        ⟨t.calls + 1, retryDelay jitter attempt :: t.sleeps, t.result⟩
      else ⟨1, [], .error ⟨"NOTION_NETWORK_ERROR", 502⟩⟩

/-- Function `notionFetch(url, options, accessToken)` with the per-attempt `fetch`
outcome supplied by the oracle `respond`. -/
def notionFetch (respond : Nat → FetchOutcome) (jitter : Nat → Nat) :
    FetchTrace :=
  notionFetchAux respond jitter (MAX_RETRIES + 1) 0 none

/-- The sequential loop of `syncTrades`: for each index `i`, sleep
`BATCH_SEQUENTIAL_DELAY_MS` first when `useDelay && i > 0`, then attempt the
single-item write; a success is pushed onto `results` as (index, page_id), a
failure onto `errors` as (index, error); sleeps are returned as
(index, milliseconds) events. -/
def syncAux {α : Type} (write : Nat → α → Except NotionApiError String)
    (useDelay : Bool) :
    Nat → List α →
      List (Nat × String) × List (Nat × NotionApiError) × List (Nat × Nat)
  | _, [] => ([], [], [])
  | i, t :: ts =>
    let pre : List (Nat × Nat) :=
      if useDelay && decide (0 < i) then [(i, BATCH_SEQUENTIAL_DELAY_MS)] else []
    match write i t with
    | .ok pageId =>
      let rest := syncAux write useDelay (i + 1) ts
      ((i, pageId) :: rest.1, rest.2.1, pre ++ rest.2.2)
    | .error e =>
      let rest := syncAux write useDelay (i + 1) ts
      (rest.1, (i, e) :: rest.2.1, pre ++ rest.2.2)

/-- The batch part of `syncTrades`: `useBatchDelay = trades.length >= 10`,
then the sequential loop from index 0. -/
def syncTradesBatch {α : Type} (write : Nat → α → Except NotionApiError String)
    (trades : List α) :
    List (Nat × String) × List (Nat × NotionApiError) × List (Nat × Nat) :=
  syncAux write (decide (10 ≤ trades.length)) 0 trades

/-- Whether the single-item write at input index `i` succeeds. -/
def idxOk {α : Type} (write : Nat → α → Except NotionApiError String)
    (trades : List α) (i : Nat) : Bool :=
  match trades[i]? with
  | some t => (write i t).isOk
  | none => false

/-- Claim C2: an identity whose summed daily counts over rows dated on or
after the first of the current month reach the monthly ceiling is denied with
MONTHLY_LIMIT_REACHED and resetAt = first instant of the next calendar month
(UTC), without the daily upsert and with the store unchanged — even when its
daily count alone is below the daily ceiling. -/
theorem checkRateLimit_monthly_denies (k today : String) (s : Store)
    (hk : k ≠ "")
    (hm : MONTHLY_LIMIT ≤ monthlySum s k (monthStartOf today))
    (hd : dailyCount s k today < DAILY_LIMIT) :
    checkRateLimit k today (.avail s) = (rlMonthlyDenied today, .avail s) := by
  have hk2 : (k == "") = false := by simp [hk]
  simp [checkRateLimit, hk2, checkRateLimitDB, hm, rlMonthlyDenied]

/-- Witness for C2: the seeded identity TEST-0002 with monthly aggregate 200
is denied monthly on its first call of a fresh day, store untouched. -/
theorem checkRateLimit_monthly_denies_witness :
    checkRateLimit "TEST-0002" "2026-10-11"
        (.avail [⟨"TEST-0002", "2026-10-01", 200, 0, 0⟩])
      = (rlMonthlyDenied "2026-10-11",
         .avail [⟨"TEST-0002", "2026-10-01", 200, 0, 0⟩]) :=
  checkRateLimit_monthly_denies "TEST-0002" "2026-10-11" _
    (by decide) (by decide) (by decide)

/-- Claim C6: when every backing-store query throws, `verifyRequest` still
accepts a request that passes its non-store checks (present identity, fresh
timestamp, no signature supplied) and `checkRateLimit` still allows — both
components fail open on store errors. -/
theorem failOpen_on_store_errors (k today ts body : String)
    (parseTime : String → Option Int) (now rt : Int)
    (secret : Option String) (hmacHex : String → String → String)
    (hk : k ≠ "") (hts : ts ≠ "")
    (hparse : parseTime ts = some rt)
    (hfresh : (now - rt).natAbs ≤ TIMESTAMP_TOLERANCE_MS) :
    verifyRequest parseTime now ⟨k, some ts, none, body⟩ .failing secret hmacHex
        = { valid := true, licenseKey := some k }
      ∧ checkRateLimit k today .failing = ({ allowed := true }, .failing) := by
  have hk2 : (k == "") = false := by simp [hk]
  have hts2 : (ts == "") = false := by simp [hts]
  constructor
  · simp [verifyRequest, hk2, hts2, hparse, Nat.not_lt.mpr hfresh]
  · simp [checkRateLimit, hk2]

/-- Witness for C6 at a concrete request and a throwing store. -/
theorem failOpen_on_store_errors_witness :
    verifyRequest (fun _ => some 0) 0
        ⟨"TEST-0001", some "2026-10-11T00:00:00Z", none, "{}"⟩
        .failing none (fun _ _ => "")
      = { valid := true, licenseKey := some "TEST-0001" }
    ∧ checkRateLimit "TEST-0001" "2026-10-11" .failing
      = ({ allowed := true }, .failing) :=
  failOpen_on_store_errors "TEST-0001" "2026-10-11" "2026-10-11T00:00:00Z" "{}"
    (fun _ => some 0) 0 0 none (fun _ _ => "")
    (by decide) (by decide) rfl (by decide)

theorem natOr_eq_zero (a b : Nat) : a ||| b = 0 ↔ a = 0 ∧ b = 0 := by
  constructor
  · intro h
    constructor
    · by_contra ha
      obtain ⟨i, hi⟩ := Nat.exists_most_significant_bit ha
      have h2 : (a ||| b).testBit i = true := by
        rw [Nat.testBit_lor, hi.1]; simp
      rw [h] at h2; simp at h2
    · by_contra hb
      obtain ⟨i, hi⟩ := Nat.exists_most_significant_bit hb
      have h2 : (a ||| b).testBit i = true := by
        rw [Nat.testBit_lor, hi.1]; simp
      rw [h] at h2; simp at h2
  · rintro ⟨rfl, rfl⟩; rfl

theorem foldl_or_zero (l : List (Char × Char)) : ∀ a : Nat,
    (l.foldl (fun acc p => acc ||| (p.1.toNat ^^^ p.2.toNat)) a = 0)
      ↔ (a = 0 ∧ ∀ p ∈ l, p.1.toNat ^^^ p.2.toNat = 0) := by
  induction l with
  | nil => simp
  | cons x xs ih =>
    intro a
    rw [List.foldl_cons, ih, natOr_eq_zero]
    constructor
    · rintro ⟨⟨ha, hx⟩, hxs⟩
      refine ⟨ha, ?_⟩
      intro p hp
      rcases List.mem_cons.mp hp with h | h
      · rw [h]; exact hx
      · exact hxs p h
    · rintro ⟨ha, hall⟩
      exact ⟨⟨ha, hall x (List.mem_cons_self x xs)⟩,
        fun p hp => hall p (List.mem_cons_of_mem x hp)⟩

theorem zip_self_fst_eq_snd (l : List Char) : ∀ p ∈ l.zip l, p.1 = p.2 := by
  induction l with
  | nil => simp
  | cons x xs ih =>
    intro p hp
    rw [List.zip_cons_cons] at hp
    rcases List.mem_cons.mp hp with h | h
    · rw [h]
    · exact ih p h

theorem eq_of_zip_xor_zero : ∀ l1 l2 : List Char, l1.length = l2.length →
    (∀ p ∈ l1.zip l2, p.1.toNat ^^^ p.2.toNat = 0) → l1 = l2 := by
  intro l1
  induction l1 with
  | nil =>
    intro l2 h _
    cases l2 with
    | nil => rfl
    | cons y ys => simp at h
  | cons x xs ih =>
    intro l2 h hall
    cases l2 with
    | nil => simp at h
    | cons y ys =>
      have hx : x = y := by
        have hxor := hall (x, y) (by rw [List.zip_cons_cons]; exact List.mem_cons_self _ _)
        have h2 : x.toNat = y.toNat := Nat.xor_eq_zero.mp hxor
        have h3 := congrArg Char.ofNat h2
        rwa [Char.ofNat_toNat, Char.ofNat_toNat] at h3
      subst hx
      have hrest : xs = ys := by
        refine ih ys (by simpa using h) ?_
        intro p hp
        exact hall p (by rw [List.zip_cons_cons]; exact List.mem_cons_of_mem _ hp)
      rw [hrest]

/-- The constant-time comparison decides exactly string equality. -/
theorem ctEq_iff_eq (a b : String) : ctEq a b = true ↔ a = b := by
  unfold ctEq
  by_cases hlen : a.length = b.length
  · simp only [hlen, bne_self_eq_false, Bool.false_eq_true, if_false, beq_iff_eq]
    constructor
    · intro h
      have hl : a.data.length = b.data.length := hlen
      have hz := (foldl_or_zero _ 0).mp h
      exact String.ext (eq_of_zip_xor_zero a.data b.data hl hz.2)
    · rintro rfl
      refine (foldl_or_zero _ 0).mpr ⟨rfl, ?_⟩
      intro p hp
      rw [zip_self_fst_eq_snd a.data p hp]
      exact Nat.xor_self _
  · have hne : a ≠ b := fun h => hlen (by rw [h])
    simp [bne_iff_ne, hlen, hne]

/-- Claim C9: with a configured secret and a supplied signature,
`verifyHmacSignature` accepts exactly when the signature equals the hex
HMAC-SHA256 (the `hmacHex` oracle) of `timestamp + ":" + body` under the
secret; the comparison requires equal length first and then branches only on
the accumulated XOR of character codes. -/
theorem verifyHmacSignature_correct (hmacHex : String → String → String)
    (body timestamp sig secret : String) :
    verifyHmacSignature hmacHex body timestamp sig secret = true
      ↔ sig = hmacHex secret (timestamp ++ ":" ++ body) :=
  ctEq_iff_eq sig (hmacHex secret (timestamp ++ ":" ++ body))

/-- Claim C10: a request that omits the X-Signature header is never rejected
with INVALID_SIGNATURE — even when a signing secret is configured — because
signature verification runs only when both a signature and the secret are
present. -/
theorem verifyRequest_omitted_signature_never_invalid (parseTime : String → Option Int)
    (now : Int) (k : String) (ts : Option String) (body : String) (db : LicDB)
    (secret : Option String) (hmacHex : String → String → String) :
    ((verifyRequest parseTime now ⟨k, ts, none, body⟩ db secret hmacHex).reason
        == some "INVALID_SIGNATURE") = false := by
  unfold verifyRequest
  repeat' split
  all_goals simp_all

/-- Counterexample to C8 as stated: `verifyRequest` performs no format check.
The identity "bad" fails `isValidKeyFormat`, yet a request carrying it (with
a fresh timestamp) is fully accepted by `verifyRequest` after the store
lookup, instead of being rejected with a format-error reason before any
store access. -/
theorem verifyRequest_accepts_invalid_format :
    isValidKeyFormat "bad" = false
    ∧ verifyRequest (fun _ => some 0) 0 ⟨"bad", some "t0", none, ""⟩
        (.avail [("bad", "active")]) none (fun _ _ => "")
      = { valid := true, licenseKey := some "bad" } := by
  constructor
  · decide
  · rfl

/-- Amended C8: the identity-format rejection lives in the `authenticate`
middleware, not in `verifyRequest`: for every request on a non-skip path
whose identity is present but fails `isValidKeyFormat`, `authenticate`
returns AUTH_INVALID_FORMAT (status 401) for every backing-store state —
including a throwing store — i.e. before and independently of any store
access. -/
theorem authenticate_rejects_invalid_format (hashHex : String → String)
    (path k : String) (db : LicDB)
    (hpath : path ∉ SKIP_AUTH_PATHS) (hk : k ≠ "")
    (hfmt : isValidKeyFormat k = false) :
    authenticate hashHex path (some k) db = .err "AUTH_INVALID_FORMAT" 401 := by
  have hk2 : (k == "") = false := by simp [hk]
  cases db <;> simp [authenticate, hpath, hk2, hfmt]

/-- Witness for the amended C8: the malformed key "bad" on a protected path
is rejected with AUTH_INVALID_FORMAT even when the store throws. -/
theorem authenticate_rejects_invalid_format_witness :
    authenticate (fun _ => "") "/api/parse-trades" (some "bad") .failing
      = .err "AUTH_INVALID_FORMAT" 401 :=
  authenticate_rejects_invalid_format (fun _ => "") "/api/parse-trades" "bad"
    .failing (by decide) (by decide) (by decide)

theorem upsertTokens_dailyCount (k d : String) (a b : Nat) : ∀ s : Store,
    dailyCount (upsertTokens s k d a b) k d = dailyCount s k d := by
  intro s
  induction s with
  | nil => simp [upsertTokens, dailyCount, findRow]
  | cons r rs ih =>
    by_cases h : (r.license_key == k && r.date == d) = true
    · simp [upsertTokens, h, dailyCount, findRow]
    · simp only [upsertTokens, h, Bool.false_eq_true, if_false,
        dailyCount, findRow] at ih ⊢
      exact ih

theorem upsertTokens_tokenIn (k d : String) (a b : Nat) : ∀ s : Store,
    tokenInCount (upsertTokens s k d a b) k d = tokenInCount s k d + a := by
  intro s
  induction s with
  | nil => simp [upsertTokens, tokenInCount, findRow]
  | cons r rs ih =>
    by_cases h : (r.license_key == k && r.date == d) = true
    · simp [upsertTokens, h, tokenInCount, findRow]
    · simp only [upsertTokens, h, Bool.false_eq_true, if_false,
        tokenInCount, findRow] at ih ⊢
      exact ih

theorem upsertTokens_tokenOut (k d : String) (a b : Nat) : ∀ s : Store,
    tokenOutCount (upsertTokens s k d a b) k d = tokenOutCount s k d + b := by
  intro s
  induction s with
  | nil => simp [upsertTokens, tokenOutCount, findRow]
  | cons r rs ih =>
    by_cases h : (r.license_key == k && r.date == d) = true
    · simp [upsertTokens, h, tokenOutCount, findRow]
    · simp only [upsertTokens, h, Bool.false_eq_true, if_false,
        tokenOutCount, findRow] at ih ⊢
      exact ih

theorem upsertTokens_isSome (k d : String) (a b : Nat) : ∀ s : Store,
    (findRow (upsertTokens s k d a b) k d).isSome = true := by
  intro s
  induction s with
  | nil => simp [upsertTokens, findRow]
  | cons r rs ih =>
    by_cases h : (r.license_key == k && r.date == d) = true
    · simp [upsertTokens, h, findRow]
    · simp only [upsertTokens, h, Bool.false_eq_true, if_false, findRow]
      exact ih

/-- Claim C7: any number of `trackTokenUsage` calls for one identity/day
leave the stored `analysis_count` unchanged and increment only
`token_input`/`token_output`, each by the sum of the supplied amounts; a row
created lazily by these calls exists afterwards and (by the unchanged count)
was created with operation count 0. -/
theorem trackTokenUsage_never_touches_count (k today : String) (s0 : Store)
    (L : List (Nat × Nat)) (hk : k ≠ "") :
    runTrack k today L (.avail s0) = .avail (runTrackStore k today L s0)
    ∧ dailyCount (runTrackStore k today L s0) k today = dailyCount s0 k today
    ∧ tokenInCount (runTrackStore k today L s0) k today
        = tokenInCount s0 k today + (L.map Prod.fst).sum
    ∧ tokenOutCount (runTrackStore k today L s0) k today
        = tokenOutCount s0 k today + (L.map Prod.snd).sum
    ∧ (findRow (runTrackStore k today L s0) k today).isSome
        = ((findRow s0 k today).isSome || !L.isEmpty) := by
  have hk2 : (k == "") = false := by simp [hk]
  induction L generalizing s0 with
  | nil => simp [runTrack, runTrackStore]
  | cons amt rest ih =>
    have hstep : trackTokenUsage k (.avail s0) today amt.1 amt.2
        = .avail (upsertTokens s0 k today amt.1 amt.2) := by
      simp [trackTokenUsage, hk2]
    obtain ⟨ih1, ih2, ih3, ih4, ih5⟩ := ih (upsertTokens s0 k today amt.1 amt.2)
    refine ⟨?_, ?_, ?_, ?_, ?_⟩
    · show runTrack k today rest
          (trackTokenUsage k (.avail s0) today amt.1 amt.2) = _
      rw [hstep]
      exact ih1
    · rw [show runTrackStore k today (amt :: rest) s0
          = runTrackStore k today rest (upsertTokens s0 k today amt.1 amt.2) from rfl,
        ih2, upsertTokens_dailyCount]
    · rw [show runTrackStore k today (amt :: rest) s0
          = runTrackStore k today rest (upsertTokens s0 k today amt.1 amt.2) from rfl,
        ih3, upsertTokens_tokenIn]
      simp [Nat.add_assoc]
    · rw [show runTrackStore k today (amt :: rest) s0
          = runTrackStore k today rest (upsertTokens s0 k today amt.1 amt.2) from rfl,
        ih4, upsertTokens_tokenOut]
      simp [Nat.add_assoc]
    · rw [show runTrackStore k today (amt :: rest) s0
          = runTrackStore k today rest (upsertTokens s0 k today amt.1 amt.2) from rfl,
        ih5, upsertTokens_isSome]
      simp

/-- Witness for C7: two token-tracking calls on a fresh store leave the
operation count at 0 and accumulate the token sums. -/
theorem trackTokenUsage_never_touches_count_witness :
    runTrack "TEST-0001" "2026-10-11" [(1, 2), (3, 4)] (.avail [])
        = .avail (runTrackStore "TEST-0001" "2026-10-11" [(1, 2), (3, 4)] [])
    ∧ dailyCount (runTrackStore "TEST-0001" "2026-10-11" [(1, 2), (3, 4)] [])
        "TEST-0001" "2026-10-11"
      = dailyCount [] "TEST-0001" "2026-10-11"
    ∧ tokenInCount (runTrackStore "TEST-0001" "2026-10-11" [(1, 2), (3, 4)] [])
        "TEST-0001" "2026-10-11"
      = tokenInCount [] "TEST-0001" "2026-10-11"
          + (([(1, 2), (3, 4)] : List (Nat × Nat)).map Prod.fst).sum
    ∧ tokenOutCount (runTrackStore "TEST-0001" "2026-10-11" [(1, 2), (3, 4)] [])
        "TEST-0001" "2026-10-11"
      = tokenOutCount [] "TEST-0001" "2026-10-11"
          + (([(1, 2), (3, 4)] : List (Nat × Nat)).map Prod.snd).sum
    ∧ (findRow (runTrackStore "TEST-0001" "2026-10-11" [(1, 2), (3, 4)] [])
        "TEST-0001" "2026-10-11").isSome
      = ((findRow ([] : Store) "TEST-0001" "2026-10-11").isSome
          || !([(1, 2), (3, 4)] : List (Nat × Nat)).isEmpty) :=
  trackTokenUsage_never_touches_count "TEST-0001" "2026-10-11" [] [(1, 2), (3, 4)]
    (by decide)

/-- Claim C3: when every attempt fails with a retryable status (429 or 5xx),
`notionFetch` invokes the fetch exactly 1 + MAX_RETRIES = 4 times, the
sleeps before the three retries are `baseDelay[k] + jitter k`, each lying in
the half-open interval [baseDelay[k], baseDelay[k] + jitterRange[k]) for base
delays 500/1000/2000 ms and jitter ranges 200/400/800 ms, and the call ends
in an error (the item is then recorded as failed by the caller). -/
theorem notionFetch_retry_budget (respond : Nat → FetchOutcome) (jitter : Nat → Nat)
    (hfail : ∀ a, ∃ status errBody, respond a = .httpError status errBody
        ∧ (status == 429 || decide (500 ≤ status)) = true)
    (hjit : ∀ a, a < MAX_RETRIES → jitter a < JITTER_RANGES_MS.getD a 0) :
    (notionFetch respond jitter).calls = 1 + MAX_RETRIES
    ∧ (notionFetch respond jitter).sleeps
        = [500 + jitter 0, 1000 + jitter 1, 2000 + jitter 2]
    ∧ 500 ≤ 500 + jitter 0 ∧ 500 + jitter 0 < 500 + 200
    ∧ 1000 ≤ 1000 + jitter 1 ∧ 1000 + jitter 1 < 1000 + 400
    ∧ 2000 ≤ 2000 + jitter 2 ∧ 2000 + jitter 2 < 2000 + 800
    ∧ (notionFetch respond jitter).result.isOk = false := by
  obtain ⟨s0, b0, h0, hr0⟩ := hfail 0
  obtain ⟨s1, b1, h1, hr1⟩ := hfail 1
  obtain ⟨s2, b2, h2, hr2⟩ := hfail 2
  obtain ⟨s3, b3, h3, hr3⟩ := hfail 3
  have j0 := hjit 0 (by decide)
  have j1 := hjit 1 (by decide)
  have j2 := hjit 2 (by decide)
  simp only [JITTER_RANGES_MS, List.getD, List.get?, Option.getD] at j0 j1 j2
  have htrace : notionFetch respond jitter
      = ⟨1 + MAX_RETRIES, [500 + jitter 0, 1000 + jitter 1, 2000 + jitter 2],
         .error ⟨"NOTION_API_ERROR", s3⟩⟩ := by
    simp [notionFetch, notionFetchAux, h0, h1, h2, h3, hr0, hr1, hr2, hr3,
      MAX_RETRIES, retryDelay, BASE_DELAYS_MS]
  rw [htrace]
  refine ⟨rfl, rfl, by omega, by omega, by omega, by omega, by omega, by omega, rfl⟩

/-- Witness for C3: a fetch that always answers 503 with jitter draw 7 is
invoked 4 times, sleeping 507, 1007 and 2007 ms before the retries. -/
theorem notionFetch_retry_budget_witness :
    (notionFetch (fun _ => .httpError 503 "overloaded") (fun _ => 7)).calls
        = 1 + MAX_RETRIES
    ∧ (notionFetch (fun _ => .httpError 503 "overloaded") (fun _ => 7)).sleeps
        = [500 + 7, 1000 + 7, 2000 + 7]
    ∧ 500 ≤ 500 + 7 ∧ 500 + 7 < 500 + 200
    ∧ 1000 ≤ 1000 + 7 ∧ 1000 + 7 < 1000 + 400
    ∧ 2000 ≤ 2000 + 7 ∧ 2000 + 7 < 2000 + 800
    ∧ (notionFetch (fun _ => .httpError 503 "overloaded") (fun _ => 7)).result.isOk
        = false :=
  notionFetch_retry_budget (fun _ => .httpError 503 "overloaded") (fun _ => 7)
    (fun _ => ⟨503, "overloaded", rfl, rfl⟩)
    (fun a ha => by
      have ha3 : a < 3 := ha
      interval_cases a <;> decide)

theorem syncAux_indices {α : Type} (write : Nat → α → Except NotionApiError String)
    (d : Bool) : ∀ (ts : List α) (i : Nat),
    ((syncAux write d i ts).1.map Prod.fst
      = (List.range' i ts.length).filter
          (fun j => match ts[j - i]? with
            | some t => (write j t).isOk
            | none => false))
    ∧ ((syncAux write d i ts).2.1.map Prod.fst
      = (List.range' i ts.length).filter
          (fun j => match ts[j - i]? with
            | some t => !(write j t).isOk
            | none => false)) := by
  intro ts
  induction ts with
  | nil => intro i; simp [syncAux]
  | cons t ts ih =>
    intro i
    have hsub : ∀ j, j ∈ List.range' (i + 1) ts.length → j - i = (j - (i + 1)) + 1 := by
      intro j hj
      have := (List.mem_range'_1.mp hj).1
      omega
    have hcongOk : (List.range' (i + 1) ts.length).filter
          (fun j => match (t :: ts)[j - i]? with
            | some u => (write j u).isOk
            | none => false)
        = (List.range' (i + 1) ts.length).filter
          (fun j => match ts[j - (i + 1)]? with
            | some u => (write j u).isOk
            | none => false) := by
      refine List.filter_congr ?_
      intro j hj
      rw [hsub j hj, List.getElem?_cons_succ]
    have hcongErr : (List.range' (i + 1) ts.length).filter
          (fun j => match (t :: ts)[j - i]? with
            | some u => !(write j u).isOk
            | none => false)
        = (List.range' (i + 1) ts.length).filter
          (fun j => match ts[j - (i + 1)]? with
            | some u => !(write j u).isOk
            | none => false) := by
      refine List.filter_congr ?_
      intro j hj
      rw [hsub j hj, List.getElem?_cons_succ]
    obtain ⟨ihOk, ihErr⟩ := ih (i + 1)
    rw [show (t :: ts).length = ts.length + 1 from rfl, List.range'_succ]
    constructor
    · cases hw : write i t with
      | ok pid =>
        rw [List.filter_cons]
        simp only [Nat.sub_self, List.getElem?_cons_zero, hw, Except.isOk,
          if_true]
        rw [hcongOk, ← ihOk]
        simp [syncAux, hw, Except.toBool]
      | error e =>
        rw [List.filter_cons]
        simp only [Nat.sub_self, List.getElem?_cons_zero, hw, Except.isOk,
          Bool.false_eq_true, if_false]
        rw [hcongOk, ← ihOk]
        simp [syncAux, hw, Except.toBool]
    · cases hw : write i t with
      | ok pid =>
        rw [List.filter_cons]
        simp only [Nat.sub_self, List.getElem?_cons_zero, hw, Except.isOk,
          Bool.not_true, Bool.false_eq_true, if_false]
        rw [hcongErr, ← ihErr]
        simp [syncAux, hw, Except.toBool]
      | error e =>
        rw [List.filter_cons]
        simp only [Nat.sub_self, List.getElem?_cons_zero, hw, Except.isOk,
          Bool.not_false, if_true]
        rw [hcongErr, ← ihErr]
        simp [syncAux, hw, Except.toBool]

theorem syncAux_sleeps {α : Type} (write : Nat → α → Except NotionApiError String)
    (d : Bool) : ∀ (ts : List α) (i : Nat),
    (syncAux write d i ts).2.2
      = ((List.range' i ts.length).filter (fun j => d && decide (0 < j))).map
          (fun j => (j, BATCH_SEQUENTIAL_DELAY_MS)) := by
  intro ts
  induction ts with
  | nil => intro i; simp [syncAux]
  | cons t ts ih =>
    intro i
    rw [show (t :: ts).length = ts.length + 1 from rfl, List.range'_succ,
      List.filter_cons]
    have hstep : (syncAux write d i (t :: ts)).2.2
        = (if d && decide (0 < i) then [(i, BATCH_SEQUENTIAL_DELAY_MS)] else [])
          ++ (syncAux write d (i + 1) ts).2.2 := by
      cases hw : write i t <;> simp [syncAux, hw]
    rw [hstep, ih (i + 1)]
    by_cases hc : (d && decide (0 < i)) = true
    · simp [hc]
    · simp [hc]

/-- Claim C4: for every input batch and any interleaving of per-item
successes and failures, the indices in the returned `results` are exactly
the indices 0..K-1 whose write succeeds and those in `errors` exactly the
indices whose write fails, each list in increasing input order (both are
filters of `range K`), so every index appears in exactly one list and one
item's failure never prevents the remaining items from being attempted. -/
theorem syncTrades_index_partition {α : Type}
    (write : Nat → α → Except NotionApiError String) (trades : List α) :
    (syncTradesBatch write trades).1.map Prod.fst
      = (List.range trades.length).filter (idxOk write trades)
    ∧ (syncTradesBatch write trades).2.1.map Prod.fst
      = (List.range trades.length).filter (fun i => !idxOk write trades i) := by
  obtain ⟨hOk, hErr⟩ := syncAux_indices write (decide (10 ≤ trades.length)) trades 0
  constructor
  · rw [show syncTradesBatch write trades
        = syncAux write (decide (10 ≤ trades.length)) 0 trades from rfl,
      hOk, List.range_eq_range']
    refine List.filter_congr ?_
    intro j hj
    simp only [Nat.sub_zero, idxOk]
  · rw [show syncTradesBatch write trades
        = syncAux write (decide (10 ≤ trades.length)) 0 trades from rfl,
      hErr, List.range_eq_range']
    refine List.filter_congr ?_
    intro j hj
    have hjlen : j < trades.length := by
      have := List.mem_range'_1.mp hj
      omega
    simp only [Nat.sub_zero, idxOk, List.getElem?_eq_getElem hjlen]

/-- Counterexample to C5 as stated: a batch of size 2 (which is ≥ 2) is
written with no inter-item pacing sleep at all, because `syncTrades` only
enables the 340 ms delay when the batch has at least 10 items. -/
theorem syncTrades_no_pacing_for_small_batch :
    ((["a", "b"] : List String).length = 2)
    ∧ (syncTradesBatch (fun _ (_ : String) => Except.ok "page") ["a", "b"]).2.2
        = [] :=
  ⟨rfl, rfl⟩

/-- Amended C5: for every batch of at least 10 items, a sleep of the fixed
inter-item pacing delay (340 ms) is performed before issuing the write for
every item except the first (batches smaller than 10 get no pacing delay,
as the counterexample shows). -/
theorem syncTrades_pacing_for_large_batches {α : Type}
    (write : Nat → α → Except NotionApiError String) (trades : List α)
    (h : 10 ≤ trades.length) :
    (syncTradesBatch write trades).2.2
      = (List.range' 1 (trades.length - 1)).map
          (fun j => (j, BATCH_SEQUENTIAL_DELAY_MS)) := by
  have hd10 : decide (10 ≤ trades.length) = true := by simp [h]
  have hlen : trades.length = (trades.length - 1) + 1 := by omega
  have hr : List.range' 0 trades.length = 0 :: List.range' 1 (trades.length - 1) := by
    conv_lhs => rw [hlen]
    rw [List.range'_succ]
  rw [show syncTradesBatch write trades
      = syncAux write (decide (10 ≤ trades.length)) 0 trades from rfl,
    syncAux_sleeps write (decide (10 ≤ trades.length)) trades 0]
  simp only [hd10, Bool.true_and]
  rw [hr, List.filter_cons]
  simp only [decide_eq_true_eq, Nat.lt_irrefl, decide_False, Bool.false_eq_true,
    if_false]
  rw [List.filter_eq_self.mpr]
  intro j hj
  have := List.mem_range'_1.mp hj
  simp
  omega

/-- Witness for the amended C5: a 10-item batch sleeps 340 ms before each of
the items at indices 1..9. -/
theorem syncTrades_pacing_for_large_batches_witness :
    (syncTradesBatch (fun _ (_ : String) => Except.ok "page")
        ["t0", "t1", "t2", "t3", "t4", "t5", "t6", "t7", "t8", "t9"]).2.2
      = (List.range' 1
          ((["t0", "t1", "t2", "t3", "t4", "t5", "t6", "t7", "t8", "t9"] :
            List String).length - 1)).map
          (fun j => (j, BATCH_SEQUENTIAL_DELAY_MS)) :=
  syncTrades_pacing_for_large_batches
    (fun _ (_ : String) => Except.ok "page")
    ["t0", "t1", "t2", "t3", "t4", "t5", "t6", "t7", "t8", "t9"] (by decide)

/-- Unfolding equation for `monthlySum` on a cons cell. -/
theorem monthlySum_cons (r : UsageRow) (rs : Store) (k ms : String) :
    monthlySum (r :: rs) k ms
      = (if r.license_key == k && strLeb ms r.date then r.analysis_count else 0)
        + monthlySum rs k ms := rfl

theorem upsertDaily_lt (k d : String) (lim : Nat) : ∀ s : Store,
    dailyCount s k d < lim →
    (upsertDaily s k d lim).2 = 1
    ∧ dailyCount (upsertDaily s k d lim).1 k d = dailyCount s k d + 1
    ∧ ∀ ms, monthlySum (upsertDaily s k d lim).1 k ms
        = monthlySum s k ms + (if strLeb ms d then 1 else 0) := by
  intro s
  induction s with
  | nil =>
    intro _
    refine ⟨rfl, ?_, ?_⟩
    · simp [upsertDaily, dailyCount, findRow]
    · intro ms
      simp only [upsertDaily, monthlySum, monthlySum_cons]
      by_cases hms : strLeb ms d = true <;> simp [hms]
  | cons r rs ih =>
    intro hlt
    by_cases h : (r.license_key == k && r.date == d) = true
    · have hdc : dailyCount (r :: rs) k d = r.analysis_count := by
        simp [dailyCount, findRow, h]
      rw [hdc] at hlt ⊢
      obtain ⟨h1, h2⟩ : r.license_key = k ∧ r.date = d := by
        simpa [Bool.and_eq_true, beq_iff_eq] using h
      have hup : upsertDaily (r :: rs) k d lim
          = ({ r with analysis_count := r.analysis_count + 1 } :: rs, 1) := by
        simp [upsertDaily, h, hlt]
      refine ⟨by rw [hup], ?_, ?_⟩
      · rw [hup]
        simp [dailyCount, findRow, h1, h2]
      · intro ms
        rw [hup]
        dsimp only
        rw [monthlySum_cons, monthlySum_cons]
        dsimp only
        rw [h1, h2]
        by_cases hms : strLeb ms d = true <;> simp [hms] <;> omega
    · have hdc : dailyCount (r :: rs) k d = dailyCount rs k d := by
        simp [dailyCount, findRow, h]
      rw [hdc] at hlt ⊢
      obtain ⟨i1, i2, i3⟩ := ih hlt
      have hup : upsertDaily (r :: rs) k d lim
          = (r :: (upsertDaily rs k d lim).1, (upsertDaily rs k d lim).2) := by
        simp [upsertDaily, h]
      refine ⟨by rw [hup]; exact i1, ?_, ?_⟩
      · rw [hup]
        dsimp only
        show dailyCount (r :: (upsertDaily rs k d lim).1) k d = dailyCount rs k d + 1
        simp only [dailyCount, findRow, h, Bool.false_eq_true, if_false]
        exact i2
      · intro ms
        rw [hup]
        dsimp only
        rw [monthlySum_cons, monthlySum_cons, i3 ms]
        omega

theorem upsertDaily_ge (k d : String) (lim : Nat) (hlim : 0 < lim) : ∀ s : Store,
    lim ≤ dailyCount s k d →
    upsertDaily s k d lim = (s, 0) := by
  intro s
  induction s with
  | nil =>
    intro hge
    simp [dailyCount, findRow] at hge
    omega
  | cons r rs ih =>
    intro hge
    by_cases h : (r.license_key == k && r.date == d) = true
    · have hdc : dailyCount (r :: rs) k d = r.analysis_count := by
        simp [dailyCount, findRow, h]
      rw [hdc] at hge
      have hnlt : ¬ r.analysis_count < lim := by omega
      simp [upsertDaily, h, hnlt]
    · have hdc : dailyCount (r :: rs) k d = dailyCount rs k d := by
        simp [dailyCount, findRow, h]
      rw [hdc] at hge
      simp [upsertDaily, h, ih hge]

theorem runCalls_avail (k today : String) (hk : k ≠ "") :
    ∀ (n : Nat) (s : Store),
    dailyCount s k today ≤ DAILY_LIMIT →
    monthlySum s k (monthStartOf today) + (DAILY_LIMIT - dailyCount s k today)
        < MONTHLY_LIMIT →
    (runCalls k today n (.avail s)).1
      = List.replicate (min n (DAILY_LIMIT - dailyCount s k today)) rlAllowed
        ++ List.replicate (n - (DAILY_LIMIT - dailyCount s k today))
            (rlDailyDenied today)
    ∧ (runCalls k today n (.avail s)).2 = .avail (runCallsStore k today n s)
    ∧ dailyCount (runCallsStore k today n s) k today
        = min (dailyCount s k today + n) DAILY_LIMIT := by
  have hk2 : (k == "") = false := by simp [hk]
  intro n
  induction n with
  | zero =>
    intro s hc hm
    refine ⟨by simp [runCalls], by simp [runCalls, runCallsStore], ?_⟩
    simp [runCallsStore]
    omega
  | succ n ih =>
    intro s hc hm
    by_cases hclt : dailyCount s k today < DAILY_LIMIT
    · -- allowed step
      obtain ⟨u1, u2, u3⟩ := upsertDaily_lt k today DAILY_LIMIT s hclt
      have hmon : ¬ MONTHLY_LIMIT ≤ monthlySum s k (monthStartOf today) := by
        omega
      have hdb : checkRateLimitDB k today s
          = ({ allowed := true }, (upsertDaily s k today DAILY_LIMIT).1) := by
        simp [checkRateLimitDB, hmon, u1]
      have hstep : checkRateLimit k today (.avail s)
          = ({ allowed := true }, .avail (upsertDaily s k today DAILY_LIMIT).1) := by
        simp [checkRateLimit, hk2, hdb]
      have hδ := u3 (monthStartOf today)
      have hc2 : dailyCount (upsertDaily s k today DAILY_LIMIT).1 k today
          ≤ DAILY_LIMIT := by omega
      have hm2 : monthlySum (upsertDaily s k today DAILY_LIMIT).1 k (monthStartOf today)
          + (DAILY_LIMIT - dailyCount (upsertDaily s k today DAILY_LIMIT).1 k today)
          < MONTHLY_LIMIT := by
        rw [hδ, u2]
        by_cases hms : strLeb (monthStartOf today) today = true
        · simp only [hms, if_true]
          omega
        · simp only [hms, Bool.false_eq_true, if_false]
          omega
      obtain ⟨r1, r2, r3⟩ := ih (upsertDaily s k today DAILY_LIMIT).1 hc2 hm2
      have hrun1 : (runCalls k today (n + 1) (.avail s)).1
          = { allowed := true }
            :: (runCalls k today n (.avail (upsertDaily s k today DAILY_LIMIT).1)).1 := by
        simp [runCalls, hstep]
      have hrun2 : (runCalls k today (n + 1) (.avail s)).2
          = (runCalls k today n (.avail (upsertDaily s k today DAILY_LIMIT).1)).2 := by
        simp [runCalls, hstep]
      have hstore : runCallsStore k today (n + 1) s
          = runCallsStore k today n (upsertDaily s k today DAILY_LIMIT).1 := by
        simp [runCallsStore, hdb]
      refine ⟨?_, ?_, ?_⟩
      · rw [hrun1, r1, u2]
        have e1 : min (n + 1) (DAILY_LIMIT - dailyCount s k today)
            = min n (DAILY_LIMIT - (dailyCount s k today + 1)) + 1 := by omega
        have e2 : (n + 1) - (DAILY_LIMIT - dailyCount s k today)
            = n - (DAILY_LIMIT - (dailyCount s k today + 1)) := by omega
        rw [e1, e2, List.replicate_succ, List.cons_append]
        rfl
      · rw [hrun2, r2, hstore]
      · rw [hstore, r3, u2]
        have : dailyCount s k today + 1 + n = dailyCount s k today + (n + 1) := by omega
        rw [this]
    · -- denied step
      have hceq : dailyCount s k today = DAILY_LIMIT := by omega
      have hge : DAILY_LIMIT ≤ dailyCount s k today := by omega
      have hup := upsertDaily_ge k today DAILY_LIMIT (by decide) s hge
      have hmon : ¬ MONTHLY_LIMIT ≤ monthlySum s k (monthStartOf today) := by
        omega
      have hdb : checkRateLimitDB k today s = (rlDailyDenied today, s) := by
        simp [checkRateLimitDB, hmon, hup, rlDailyDenied]
      have hstep : checkRateLimit k today (.avail s)
          = (rlDailyDenied today, .avail s) := by
        simp [checkRateLimit, hk2, hdb]
      obtain ⟨r1, r2, r3⟩ := ih s hc hm
      have hrun1 : (runCalls k today (n + 1) (.avail s)).1
          = rlDailyDenied today :: (runCalls k today n (.avail s)).1 := by
        simp [runCalls, hstep]
      have hrun2 : (runCalls k today (n + 1) (.avail s)).2
          = (runCalls k today n (.avail s)).2 := by
        simp [runCalls, hstep]
      have hstore : runCallsStore k today (n + 1) s = runCallsStore k today n s := by
        simp [runCallsStore, hdb]
      refine ⟨?_, ?_, ?_⟩
      · rw [hrun1, r1, hceq]
        simp only [Nat.sub_self, Nat.min_zero, List.replicate_zero, List.nil_append,
          Nat.sub_zero]
        rfl
      · rw [hrun2, r2, hstore]
      · rw [hstore, r3, hceq]
        omega

/-- Claim C1: starting from a day with no operations recorded (and monthly
headroom), any sequence of N `checkRateLimit` calls for one identity on one
day yields exactly min(N, C) allowed results followed by denials carrying
DAILY_LIMIT_REACHED and resetAt = next UTC midnight (C = DAILY_LIMIT = 10);
the stored `analysis_count` ends at min(N, C) and never exceeds C, because
the check-and-increment is the single conditional upsert `upsertDaily` whose
update predicate is `analysis_count < C`. -/
theorem checkRateLimit_daily_quota (k today : String) (s0 : Store) (n : Nat)
    (hk : k ≠ "") (h0 : dailyCount s0 k today = 0)
    (hm : monthlySum s0 k (monthStartOf today) + DAILY_LIMIT < MONTHLY_LIMIT) :
    (runCalls k today n (.avail s0)).1
      = List.replicate (min n DAILY_LIMIT) rlAllowed
        ++ List.replicate (n - DAILY_LIMIT) (rlDailyDenied today)
    ∧ (runCalls k today n (.avail s0)).2 = .avail (runCallsStore k today n s0)
    ∧ dailyCount (runCallsStore k today n s0) k today = min n DAILY_LIMIT
    ∧ min n DAILY_LIMIT ≤ DAILY_LIMIT := by
  obtain ⟨r1, r2, r3⟩ := runCalls_avail k today hk n s0
    (by rw [h0]; exact Nat.zero_le _)
    (by rw [h0]; simpa using hm)
  rw [h0] at r1 r3
  simp only [Nat.sub_zero] at r1
  simp only [Nat.zero_add] at r3
  exact ⟨r1, r2, r3, Nat.min_le_right _ _⟩

/-- Witness for C1: 13 calls for TEST-0001 on a fresh day give 10 allowed,
then 3 daily denials, with the stored count at 10. -/
theorem checkRateLimit_daily_quota_witness :
    (runCalls "TEST-0001" "2026-10-11" 13 (.avail [])).1
      = List.replicate (min 13 DAILY_LIMIT) rlAllowed
        ++ List.replicate (13 - DAILY_LIMIT) (rlDailyDenied "2026-10-11")
    ∧ (runCalls "TEST-0001" "2026-10-11" 13 (.avail [])).2
        = .avail (runCallsStore "TEST-0001" "2026-10-11" 13 [])
    ∧ dailyCount (runCallsStore "TEST-0001" "2026-10-11" 13 [])
        "TEST-0001" "2026-10-11" = min 13 DAILY_LIMIT
    ∧ min 13 DAILY_LIMIT ≤ DAILY_LIMIT :=
  checkRateLimit_daily_quota "TEST-0001" "2026-10-11" [] 13
    (by decide) rfl (by decide)
